import Mathlib

/-!
# Verification of the copilot-license-cleanup reconciliation logic

Shallow embedding of `src/index.ts` (and of the team-removal variant of `run`
in the repository) in Lean 4. Timestamps are modelled as integers counting
milliseconds since the epoch (JavaScript `Date.getTime()`); day counts and
thresholds are integers. Strings (organization names, logins, team slugs,
group labels) are Lean `String`s. JavaScript `Map`s and objects are modelled
as association lists. `Array.prototype.sort` is embedded as the algorithm
of the engine the action actually runs on (Node.js / V8 TimSort), because
the comparator it is given is inconsistent and ECMAScript therefore leaves
the order implementation-defined. Fallible remote calls are modelled with
`Except` / `Option` and explicit response environments.
-/

namespace CopilotCleanup

/-- One day in milliseconds: `1000 * 3600 * 24` from `msToDays` in `src/index.ts`. -/
def dayMs : Int := 86400000

/-- `const msToDays = (d) => Math.ceil(d / (1000 * 3600 * 24))` from
`getInactiveSeats` in `src/index.ts`: ceiling division of a millisecond
count by one day. `⌈d / n⌉ = -((-d) / n)` for the floor-like `Int` division
with positive divisor. -/
def msToDays (d : Int) : Int := -((-d) / dayMs)

/-- One Copilot seat record as consumed by the classifier and the
reconciler: the fields of the `GET /orgs/{org}/copilot/billing/seats`
items that `src/index.ts` reads. `login` is `assignee.login`;
`last_activity_at`, `pending_cancellation_date` and `assigning_team`
are nullable in the API and modelled with `Option`. -/
structure Seat where
  login : String
  created_at : Int
  last_activity_at : Option Int
  pending_cancellation_date : Option Int := none
  assigning_team : Option String := none
  deriving Repr, DecidableEq

/-- The filter predicate inside `getInactiveSeats` (`src/index.ts`):
if `last_activity_at` is null/undefined the elapsed time is measured
from `created_at`, otherwise from `last_activity_at`; the seat is
inactive iff the ceiling-of-days of the elapsed milliseconds strictly
exceeds `inactiveDays`. -/
def seatIsInactive (now : Int) (inactiveDays : Int) (seat : Seat) : Bool :=
  match seat.last_activity_at with
  | none =>
      let diff := now - seat.created_at
      msToDays diff > inactiveDays
  | some lastActive =>
      let diff := now - lastActive
      msToDays diff > inactiveDays

/-- The reference timestamp the classifier measures from:
`last_activity_at` when present, else `created_at`. -/
def effectiveTimestamp (seat : Seat) : Int :=
  seat.last_activity_at.getD seat.created_at

lemma msToDays_mul (T : Int) : msToDays (T * dayMs) = T := by
  simp only [msToDays, dayMs]
  omega

lemma msToDays_mul_add_one (T : Int) : msToDays (T * dayMs + 1) = T + 1 := by
  simp only [msToDays, dayMs]
  omega

/-- C1: a seat is classified inactive exactly when the ceiling of elapsed
milliseconds over 86,400,000 — measured from `last_activity_at` when
present and from `created_at` otherwise — strictly exceeds the threshold;
an elapsed time of exactly `thresholdDays * 86,400,000` ms is active and
one more millisecond is inactive. -/
theorem seatIsInactive_spec (now thresholdDays : Int) (seat : Seat) :
    (seatIsInactive now thresholdDays seat = true ↔
      msToDays (now - effectiveTimestamp seat) > thresholdDays)
    ∧ (now - effectiveTimestamp seat = thresholdDays * dayMs →
        seatIsInactive now thresholdDays seat = false)
    ∧ (now - effectiveTimestamp seat = thresholdDays * dayMs + 1 →
        seatIsInactive now thresholdDays seat = true) := by
  have hiff : seatIsInactive now thresholdDays seat = true ↔
      msToDays (now - effectiveTimestamp seat) > thresholdDays := by
    cases h : seat.last_activity_at with
    | none => simp [seatIsInactive, effectiveTimestamp, h]
    | some t => simp [seatIsInactive, effectiveTimestamp, h]
  refine ⟨hiff, ?_, ?_⟩
  · intro hb
    rw [Bool.eq_false_iff]
    intro hc
    have := hiff.mp hc
    rw [hb, msToDays_mul] at this
    omega
  · intro hb
    exact hiff.mpr (by rw [hb, msToDays_mul_add_one]; omega)

/-- Witness for `seatIsInactive_spec`: threshold 90 days, a seat with no
`last_activity_at` created at time 0; at `now = 90` days exactly it is
active, at one millisecond later it is inactive. -/
theorem seatIsInactive_spec_witness :
    seatIsInactive (90 * dayMs) 90 ⟨"u", 0, none, none, none⟩ = false ∧
    seatIsInactive (90 * dayMs + 1) 90 ⟨"u", 0, none, none, none⟩ = true := by
  constructor
  · exact (seatIsInactive_spec (90 * dayMs) 90 ⟨"u", 0, none, none, none⟩).2.1
      (by simp [effectiveTimestamp])
  · exact (seatIsInactive_spec (90 * dayMs + 1) 90 ⟨"u", 0, none, none, none⟩).2.2
      (by simp [effectiveTimestamp])

/-- The comparator passed to `.sort` in `getInactiveSeats`
(`src/index.ts`): if either side's `last_activity_at` is null/undefined it
returns `-1`, otherwise the difference of the two activity timestamps. -/
def seatCmp (a b : Seat) : Int :=
  if a.last_activity_at = none ∨ b.last_activity_at = none then -1
  else a.last_activity_at.getD 0 - b.last_activity_at.getD 0

/-- Length of the initial run beyond its first two elements, from
`CountAndMakeRun` in V8's `array-sort.tq`: the run keeps extending while
`compare(current, previous) < 0` when it started descending, and while
`compare(current, previous) >= 0` when it started ascending. -/
def v8RunTail {α : Type} (cmp : α → α → Int) (descending : Bool) : α → List α → Nat
  | _, [] => 0
  | prev, x :: xs =>
      if descending then
        if cmp x prev < 0 then 1 + v8RunTail cmp descending x xs else 0
      else
        if cmp x prev < 0 then 0 else 1 + v8RunTail cmp descending x xs

/-- The binary-search loop of V8's `BinaryInsertionSort`: narrow
`[left, right)` by probing `compare(pivot, a[mid])`; a negative answer
moves `right` down to `mid`, anything else moves `left` past `mid`. The
fuel argument bounds the halving loop; `pre.length` iterations always
suffice because the interval shrinks at every step. -/
def v8BinSearchGo {α : Type} (cmp : α → α → Int) (pre : List α) (pivot : α) :
    Nat → Nat → Nat → Nat
  | 0, left, _ => left
  | fuel + 1, left, right =>
      if left < right then
        let mid := left + (right - left) / 2
        if cmp pivot (pre.getD mid pivot) < 0 then
          v8BinSearchGo cmp pre pivot fuel left mid
        else
          v8BinSearchGo cmp pre pivot fuel (mid + 1) right
      else left

/-- Position at which `BinaryInsertionSort` inserts `pivot` into the
sorted prefix `pre`. -/
def v8BinSearch {α : Type} (cmp : α → α → Int) (pre : List α) (pivot : α) : Nat :=
  v8BinSearchGo cmp pre pivot pre.length 0 pre.length

/-- One step of `BinaryInsertionSort`: splice `pivot` into the prefix at
the position the binary search found. -/
def v8BinInsert {α : Type} (cmp : α → α → Int) (pre : List α) (pivot : α) : List α :=
  let i := v8BinSearch cmp pre pivot
  pre.take i ++ pivot :: pre.drop i

/-- `Array.prototype.sort(cmp)` as Node.js executes it. The comparator
`seatCmp` below is inconsistent — it answers `-1` for *both* argument
orders of any pair involving an absent timestamp — so ECMAScript leaves
the resulting order implementation-defined and the engine's concrete
algorithm is the program's behavior. V8 sorts with TimSort
(`third_party/v8/builtins/array-sort.tq`); for arrays shorter than 64
elements the computed minimal run length covers the whole array, so the
engine's algorithm reduces exactly to what is embedded here: find the
maximal initial run — weakly ascending, or strictly descending per
`compare(a[i+1], a[i]) < 0`, a descending run being reversed in place —
then binary-insert each remaining element into the sorted prefix.
Beyond 63 elements the embedding keeps binary-inserting where the
engine would merge runs (still a permutation); every concrete input
below is far under that bound. -/
def v8Sort {α : Type} (cmp : α → α → Int) (l : List α) : List α :=
  match l with
  | [] => []
  | [x] => [x]
  | a0 :: a1 :: rest =>
      let descending := decide (cmp a1 a0 < 0)
      let runLength := 2 + v8RunTail cmp descending a1 rest
      let run := (a0 :: a1 :: rest).take runLength
      ((a0 :: a1 :: rest).drop runLength).foldl (v8BinInsert cmp)
        (if descending then run.reverse else run)

/-- The `SeatWithOrg` shape from `src/index.ts`: a seat spread together
with the owning organization name (`{ ...seat, organization: org }`). -/
structure SeatWithOrg extends Seat where
  organization : String
  deriving Repr, DecidableEq

/-- `getInactiveSeats` from `src/index.ts`: filter the seats through the
inactivity classifier, sort with `seatCmp` (as the engine sorts), and
annotate each survivor with the owning organization. -/
def getInactiveSeats (org : String) (now inactiveDays : Int) (seats : List Seat) :
    List SeatWithOrg :=
  (v8Sort seatCmp (seats.filter (seatIsInactive now inactiveDays))).map
    fun s => { toSeat := s, organization := org }

lemma v8BinInsert_perm {α : Type} (cmp : α → α → Int) (pre : List α) (pivot : α) :
    List.Perm (v8BinInsert cmp pre pivot) (pivot :: pre) := by
  have h := @List.perm_middle α pivot (pre.take (v8BinSearch cmp pre pivot))
    (pre.drop (v8BinSearch cmp pre pivot))
  simpa [v8BinInsert, List.take_append_drop] using h

lemma foldl_v8BinInsert_perm {α : Type} (cmp : α → α → Int) (rest : List α) :
    ∀ pre : List α, List.Perm (rest.foldl (v8BinInsert cmp) pre) (pre ++ rest) := by
  induction rest with
  | nil => intro pre; simp
  | cons x xs ih =>
    intro pre
    simp only [List.foldl_cons]
    refine (ih (v8BinInsert cmp pre x)).trans ?_
    refine ((v8BinInsert_perm cmp pre x).append_right xs).trans ?_
    simpa using List.perm_middle.symm.append_left ([] : List α)

lemma take_reverse_drop_perm {α : Type} (l : List α) (n : Nat) (b : Bool) :
    List.Perm ((if b then (l.take n).reverse else l.take n) ++ l.drop n) l := by
  cases b
  · simp [List.take_append_drop]
  · refine ((l.take n).reverse_perm.append_right (l.drop n)).trans ?_
    simp [List.take_append_drop]

lemma v8Sort_perm {α : Type} (cmp : α → α → Int) (l : List α) :
    List.Perm (v8Sort cmp l) l := by
  cases l with
  | nil => exact List.Perm.refl _
  | cons a0 tl =>
    cases tl with
    | nil => exact List.Perm.refl _
    | cons a1 rest =>
      simp only [v8Sort]
      exact (foldl_v8BinInsert_perm cmp _ _).trans (take_reverse_drop_perm _ _ _)

/-- C2 fails on the code: the comparator answers `-1` for both argument
orders of any pair involving an absent timestamp, so it is inconsistent
and the engine's concrete algorithm decides the order. On four inactive
seats with activity timestamps 5, 3, absent, 4 (in that filter order),
every run-detection probe of V8's TimSort is negative, so the whole
array is classified as one strictly descending run and reversed: the
output starts with a *present*-timestamp seat, places the
absent-timestamp seat second rather than first, and lists the present
timestamps in order 4, 3, 5 — refuting both the absent-entries-first
and the ascending-order parts of the claim. -/
theorem inactive_sort_cex :
    getInactiveSeats "o" (2 * dayMs) 0
        [⟨"p5", 0, some 5, none, none⟩, ⟨"p3", 0, some 3, none, none⟩,
         ⟨"n", 0, none, none, none⟩, ⟨"p4", 0, some 4, none, none⟩] =
      [⟨⟨"p4", 0, some 4, none, none⟩, "o"⟩, ⟨⟨"n", 0, none, none, none⟩, "o"⟩,
       ⟨⟨"p3", 0, some 3, none, none⟩, "o"⟩, ⟨⟨"p5", 0, some 5, none, none⟩, "o"⟩] ∧
    (⟨"p4", 0, some 4, none, none⟩ : Seat).last_activity_at ≠ none ∧
    (⟨"n", 0, none, none, none⟩ : Seat).last_activity_at = none ∧
    ¬ ((4 : Int) ≤ 3) := by
  refine ⟨?_, by simp, rfl, by norm_num⟩
  rfl

/-- C2 amended: the inactive list is a permutation of the seats that pass
the inactivity filter, each annotated with the owning organization — and
that is the only ordering-related guarantee. Because the comparator
answers `-1` for both argument orders of any pair involving an absent
timestamp, it is inconsistent, `Array.prototype.sort`'s order is
implementation-defined, and neither the absent-entries-first placement
nor the ascending order of present timestamps stated by the claim holds
of the engine (a concrete four-seat input above violates both). -/
theorem getInactiveSeats_order (org : String) (now inactiveDays : Int)
    (seats : List Seat) :
    List.Perm ((getInactiveSeats org now inactiveDays seats).map SeatWithOrg.toSeat)
      (seats.filter (seatIsInactive now inactiveDays))
    ∧ ∀ s ∈ getInactiveSeats org now inactiveDays seats, s.organization = org := by
  constructor
  · have hmap : (getInactiveSeats org now inactiveDays seats).map SeatWithOrg.toSeat =
        v8Sort seatCmp (seats.filter (seatIsInactive now inactiveDays)) := by
      simp only [getInactiveSeats, List.map_map]
      exact List.map_id _
    rw [hmap]
    exact v8Sort_perm seatCmp _
  · intro s hs
    simp only [getInactiveSeats, List.mem_map] at hs
    obtain ⟨x, -, rfl⟩ := hs
    rfl

/-- The value stored per organization in the `orgData` `Map` of
`src/index.ts`. The three fields are populated by `getOrgData` (`seats`),
`getInactiveSeats` (`inactiveSeats`) and `getOrgMembers` (`members`);
a field a given update has not written is absent (`none`). -/
structure OrgEntry where
  seats : Option (List Seat) := none
  inactiveSeats : Option (List SeatWithOrg) := none
  members : Option (List String) := none
  deriving Repr, DecidableEq

/-- The `{}` default used by `orgData.get(org) || {}`. -/
def emptyEntry : OrgEntry := {}

/-- The cache update at the end of `getOrgData` (`src/index.ts`):
`orgData.set(org, { seats: seats })` — a fresh object holding only the
seats, whatever was stored before. -/
def setSeatsEntry (prev : Option OrgEntry) (seats : List Seat) : OrgEntry :=
  let _ := prev
  { seats := some seats }

/-- The cache update at the end of `getInactiveSeats` (`src/index.ts`):
`orgData.set(org, { ...orgDataEntry, inactiveSeats: ... })` — the previous
entry (or `{}`) spread together with the new `inactiveSeats` field. -/
def setInactiveEntry (prev : Option OrgEntry) (inactive : List SeatWithOrg) : OrgEntry :=
  { prev.getD emptyEntry with inactiveSeats := some inactive }

/-- The cache update at the end of `getOrgMembers` (`src/index.ts`):
`orgData.set(org, { ...orgDataEntry, members: members })`. -/
def setMembersEntry (prev : Option OrgEntry) (members : List String) : OrgEntry :=
  { prev.getD emptyEntry with members := some members }

/-- C4 fails on the code: store a members roster for an organization,
then run the seat fetch for the same organization — `getOrgData` replaces
the cache entry with a fresh `{ seats: seats }` object, so the previously
stored `members` field is gone rather than preserved. -/
theorem cache_merge_cex :
    (setMembersEntry none ["m1"]).members = some ["m1"] ∧
    (setSeatsEntry (some (setMembersEntry none ["m1"])) []).members = none := by
  exact ⟨rfl, rfl⟩

/-- C4 amended: the member-fetch update and the inactive-subset update are
additive — each preserves every previously stored field it does not write —
but the seat-fetch update is destructive: it replaces the whole entry, so
previously stored `members` and `inactiveSeats` are discarded (reset to
absent) regardless of the prior entry. -/
theorem cache_update_frame (prev : OrgEntry) (seats : List Seat)
    (inactive : List SeatWithOrg) (members : List String) :
    ((setMembersEntry (some prev) members).seats = prev.seats
      ∧ (setMembersEntry (some prev) members).inactiveSeats = prev.inactiveSeats
      ∧ (setMembersEntry (some prev) members).members = some members)
    ∧ ((setInactiveEntry (some prev) inactive).seats = prev.seats
      ∧ (setInactiveEntry (some prev) inactive).members = prev.members
      ∧ (setInactiveEntry (some prev) inactive).inactiveSeats = some inactive)
    ∧ ((setSeatsEntry (some prev) seats).seats = some seats
      ∧ (setSeatsEntry (some prev) seats).members = none
      ∧ (setSeatsEntry (some prev) seats).inactiveSeats = none) := by
  exact ⟨⟨rfl, rfl, rfl⟩, ⟨rfl, rfl, rfl⟩, ⟨rfl, rfl, rfl⟩⟩

/-- One page answer of the seat endpoint
(`GET /orgs/{org}/copilot/billing/seats`), as distinguished by the
`catch` in `getOrgData` (`src/index.ts`): a successful page carrying the
seats and the reported `total_seats`, the recognized "Copilot Business is
not enabled for this organization." error, a 404, or any other error. -/
inductive PageAnswer where
  | ok (seats : List Seat) (totalSeats : Nat)
  | notEnabled
  | notFound
  | hardError
  deriving Repr, DecidableEq

/-- The pagination `do … while (_seats.length < totalSeats)` loop of
`getOrgData` (`src/index.ts`), over a remote modelled as a function from
page number to answer. A recognized soft error (`notEnabled` / 404)
`break`s, returning the seats accumulated so far; any other error is
re-thrown (`Except.error`); otherwise the page is appended, `totalSeats`
is re-read from the response, and the loop continues while fewer seats
than the reported total have accumulated. `fuel` bounds the iteration
count (the JavaScript loop has no bound; every terminating execution is
reached with enough fuel). -/
def fetchSeatsPages (remote : Nat → PageAnswer) : Nat → Nat → List Seat →
    Except Unit (List Seat)
  | 0, _, acc => .ok acc
  | fuel + 1, page, acc =>
    match remote page with
    | .ok pageSeats totalSeats =>
        let acc' := acc ++ pageSeats
        if acc'.length < totalSeats then fetchSeatsPages remote fuel (page + 1) acc'
        else .ok acc'
    | .notEnabled => .ok acc
    | .notFound => .ok acc
    | .hardError => .error ()

/-- `getOrgData`'s seat fetch, started like the source at page 1 with an
empty accumulator. -/
def fetchSeats (remote : Nat → PageAnswer) (fuel : Nat) : Except Unit (List Seat) :=
  fetchSeatsPages remote fuel 1 []

/-- C8: if the remote answers the organization's seat request with the
"Copilot Business is not enabled" condition or with 404 "not found", the
seat fetch returns an empty seat set without raising (so the run
continues with the next organization); if it answers with any other
error, the error propagates out of the fetch. -/
theorem fetchSeats_error_policy (remote : Nat → PageAnswer) (fuel : Nat) :
    (remote 1 = .notEnabled ∨ remote 1 = .notFound →
      fetchSeats remote (fuel + 1) = .ok [])
    ∧ (remote 1 = .hardError → fetchSeats remote (fuel + 1) = .error ()) := by
  constructor
  · rintro (h | h) <;> simp [fetchSeats, fetchSeatsPages, h]
  · intro h
    simp [fetchSeats, fetchSeatsPages, h]

/-- Witness for `fetchSeats_error_policy`: a remote that always answers
"not enabled" yields an empty seat list, and one that always fails hard
propagates the error. -/
theorem fetchSeats_error_policy_witness :
    fetchSeats (fun _ => PageAnswer.notEnabled) 3 = .ok [] ∧
    fetchSeats (fun _ => PageAnswer.hardError) 3 = .error () := by
  exact ⟨(fetchSeats_error_policy (fun _ => PageAnswer.notEnabled) 2).1 (Or.inl rfl),
    (fetchSeats_error_policy (fun _ => PageAnswer.hardError) 2).2 rfl⟩

/-- One row of the deploy-users CSV (`UserList` in `src/index.ts`). -/
structure UserList where
  organization : String
  deployment_group : String
  login : String
  activation_date : String
  deriving Repr, DecidableEq

/-- `orgData.get(org)` on the association-list model of the `Map`. -/
def cacheGet (cache : List (String × OrgEntry)) (org : String) : Option OrgEntry :=
  (cache.find? fun p => p.1 == org).map (·.2)

/-- `orgData.set(org, entry)`: replace the entry at the key, or append. -/
def cacheSet (cache : List (String × OrgEntry)) (org : String) (entry : OrgEntry) :
    List (String × OrgEntry) :=
  match cache with
  | [] => [(org, entry)]
  | p :: rest => if p.1 == org then (org, entry) :: rest else p :: cacheSet rest org entry

/-- Answer of the assignment sink
(`POST /orgs/{org}/copilot/billing/selected_users`) as distinguished by
the `catch` around it in `src/index.ts`: success with the reported
`seats_created`, the recognized "Copilot Business is not enabled" error,
or any other error. -/
inductive AssignAnswer where
  | created (seatsCreated : Nat)
  | notEnabled
  | hardError
  deriving Repr, DecidableEq

/-- The remote world the enrollment loop of `run` (`src/index.ts`)
interacts with: the outcome of `getOrgData` for an organization that is
not yet cached (`.error` models a thrown fetch), the assignment sink, and
the clock/threshold `getInactiveSeats` is invoked with on that path. -/
structure DeployEnv where
  fetchSeats : String → Except Unit (List Seat)
  assign : String → String → AssignAnswer
  now : Int
  inactiveDays : Int

/-- The mutable state the enrollment loop threads: the `orgData` cache,
the `deployedSeats` list, `deployedSeatsCount`, and (for auditing the
dry-run claim) the list of assignment requests actually issued to the
sink. -/
structure DeployState where
  cache : List (String × OrgEntry)
  deployedSeats : List UserList
  deployedSeatsCount : Nat
  assignCalls : List (String × String)
  deriving Repr, DecidableEq

/-- How processing one enrollment record ends in `run` (`src/index.ts`). -/
inductive Decision where
  /-- The organization was not cached; its data was fetched and the loop
  moved to the next record (the membership/seat checks sit in the `else`
  branch and are not reached on this path). -/
  | fetchedData
  /-- The organization was not cached and the fetch threw: logged and
  skipped (`continue`). -/
  | fetchFailed
  /-- The login is not in the organization's membership roster. -/
  | notMember
  /-- The login already holds a seat with no pending cancellation. -/
  | alreadySeated
  /-- A real assignment request succeeded. -/
  | assigned
  /-- Dry run: recorded as deployed without any remote call. -/
  | assignedDryRun
  /-- The assignment request failed with the recognized soft error. -/
  | assignNotEnabled
  /-- An exception escaped to the `catch` around the deploy block,
  aborting the remaining records. -/
  | abortedRun
  deriving Repr, DecidableEq

/-- The cache effect of the uncached-organization path of the enrollment
loop: `getOrgData` stores a fresh `{ seats }` entry, then
`getInactiveSeats` re-reads the entry and merges the inactive subset. -/
def fetchOrgUpdate (cache : List (String × OrgEntry)) (org : String)
    (now inactiveDays : Int) (seats : List Seat) : List (String × OrgEntry) :=
  let cache1 := cacheSet cache org (setSeatsEntry (cacheGet cache org) seats)
  cacheSet cache1 org
    (setInactiveEntry (cacheGet cache1 org) (getInactiveSeats org now inactiveDays seats))

/-- One iteration of `for (const user of usersToDeploy)` in `run`
(`src/index.ts`). `Except.error` models an exception reaching the `catch`
around the whole deploy block (which stops the loop): a `TypeError` when
the cached entry has no `members` field, or a non-soft assignment error.
On the uncached-organization path the code fetches seats (`getOrgData`
stores a fresh `{ seats }` entry, then `getInactiveSeats` merges the
inactive subset into it) and falls through to the next record. -/
def processUser (env : DeployEnv) (dryRun : Bool) (st : DeployState) (user : UserList) :
    Except DeployState (DeployState × Decision) :=
  match cacheGet st.cache user.organization with
  | none =>
      match env.fetchSeats user.organization with
      | .error _ => .ok (st, .fetchFailed)
      | .ok seats =>
          .ok ({ st with cache := (fetchOrgUpdate st.cache user.organization
                  env.now env.inactiveDays seats) }, .fetchedData)
  | some entry =>
      match entry.members with
      | none => .error st
      | some members =>
          if ¬ members.contains user.login then .ok (st, .notMember)
          else
            match (entry.seats.getD []).find? (fun seat =>
                seat.login == user.login && seat.pending_cancellation_date == none) with
            | some _ => .ok (st, .alreadySeated)
            | none =>
                if dryRun then
                  .ok ({ st with
                          deployedSeats := st.deployedSeats ++ [user],
                          deployedSeatsCount := st.deployedSeatsCount + 1 },
                       .assignedDryRun)
                else
                  match env.assign user.organization user.login with
                  | .created n =>
                      .ok ({ st with
                              assignCalls :=
                                st.assignCalls ++ [(user.organization, user.login)],
                              deployedSeats := st.deployedSeats ++ [user],
                              deployedSeatsCount := st.deployedSeatsCount + n },
                           .assigned)
                  | .notEnabled =>
                      .ok ({ st with
                              assignCalls :=
                                st.assignCalls ++ [(user.organization, user.login)] },
                           .assignNotEnabled)
                  | .hardError =>
                      .error { st with
                                assignCalls :=
                                  st.assignCalls ++ [(user.organization, user.login)] }

/-- The enrollment loop over `usersToDeploy`, returning the final state
and the per-record decisions; an escaped exception ends the loop with an
`abortedRun` marker (the `catch` logs and the run proceeds past the
deploy block). -/
def deployUsers (env : DeployEnv) (dryRun : Bool) : DeployState → List UserList →
    DeployState × List Decision
  | st, [] => (st, [])
  | st, user :: rest =>
      match processUser env dryRun st user with
      | .ok (st', d) =>
          let r := deployUsers env dryRun st' rest
          (r.1, d :: r.2)
      | .error st' => (st', [.abortedRun])

/-- C10: an enrollment record whose organization is not in the cache when
the record is processed never produces an assignment (real or dry) and
never reaches the membership / already-seated checks: the step resolves
to `fetchedData` (snapshot fetched, move to next record) or `fetchFailed`
(fetch threw, move to next record), and the deployed list, deployed count
and the set of issued assignment requests are untouched. -/
theorem uncached_org_skips_record (env : DeployEnv) (dryRun : Bool)
    (st : DeployState) (user : UserList)
    (h : cacheGet st.cache user.organization = none) :
    ∃ st' d, processUser env dryRun st user = .ok (st', d)
      ∧ (d = Decision.fetchedData ∨ d = Decision.fetchFailed)
      ∧ st'.deployedSeats = st.deployedSeats
      ∧ st'.deployedSeatsCount = st.deployedSeatsCount
      ∧ st'.assignCalls = st.assignCalls := by
  cases hf : env.fetchSeats user.organization with
  | error e =>
      simp only [processUser, h, hf]
      exact ⟨st, .fetchFailed, rfl, Or.inr rfl, rfl, rfl, rfl⟩
  | ok seats =>
      simp only [processUser, h, hf]
      exact ⟨_, .fetchedData, rfl, Or.inl rfl, rfl, rfl, rfl⟩

/-- Witness for `uncached_org_skips_record`: empty cache, a remote whose
fetch fails; the record is skipped with `fetchFailed` and nothing is
deployed. -/
theorem uncached_org_skips_record_witness :
    ∃ st' d,
      processUser ⟨fun _ => .error (), fun _ _ => .created 1, 0, 90⟩ false
          ⟨[], [], 0, []⟩ ⟨"o", "g", "u", "2024-01-01"⟩ = .ok (st', d)
        ∧ (d = Decision.fetchedData ∨ d = Decision.fetchFailed)
        ∧ st'.deployedSeats = DeployState.deployedSeats ⟨[], [], 0, []⟩
        ∧ st'.deployedSeatsCount = DeployState.deployedSeatsCount ⟨[], [], 0, []⟩
        ∧ st'.assignCalls = DeployState.assignCalls ⟨[], [], 0, []⟩ :=
  uncached_org_skips_record ⟨fun _ => .error (), fun _ _ => .created 1, 0, 90⟩ false
    ⟨[], [], 0, []⟩ ⟨"o", "g", "u", "2024-01-01"⟩ rfl

/-- Inversion of the `assigned` outcome: the assign branch does not touch
the cache, so a second processing of the same record from the resulting
state retraces exactly the same branch and assigns again. -/
lemma processUser_assigned_inv (env : DeployEnv) (st st1 : DeployState) (u : UserList)
    (h : processUser env false st u = .ok (st1, .assigned)) :
    st1.cache = st.cache ∧ st1.deployedSeats = st.deployedSeats ++ [u] ∧
    ∃ st2, processUser env false st1 u = .ok (st2, .assigned) ∧
      st2.cache = st1.cache ∧ st2.deployedSeats = st1.deployedSeats ++ [u] := by
  cases hc : cacheGet st.cache u.organization with
  | none =>
      cases hf : env.fetchSeats u.organization <;> simp [processUser, hc, hf] at h
  | some entry =>
      cases hm : entry.members with
      | none => simp [processUser, hc, hm] at h
      | some members =>
          by_cases hmem : u.login ∈ members
          · cases hfind : (entry.seats.getD []).find? (fun seat =>
                seat.login == u.login && seat.pending_cancellation_date == none) with
            | some s => simp [processUser, hc, hm, hmem, hfind] at h
            | none =>
                cases ha : env.assign u.organization u.login with
                | created n =>
                    simp [processUser, hc, hm, hmem, hfind, ha] at h
                    subst h
                    refine ⟨rfl, rfl, ?_⟩
                    simp [processUser, hc, hm, hmem, hfind, ha]
                | notEnabled => simp [processUser, hc, hm, hmem, hfind, ha] at h
                | hardError => simp [processUser, hc, hm, hmem, hfind, ha] at h
          · simp [processUser, hc, hm, hmem] at h

/-- C3 fails on the code: the same valid record twice in one run, against
a fixed state in which the user is a member and holds no seat. The cached
seat list is never refreshed after an assignment, so the second
occurrence passes the same already-seated check and triggers a second
assignment request instead of resolving to skipped-already-seated. -/
theorem duplicate_record_cex :
    (deployUsers ⟨fun _ => .error (), fun _ _ => .created 1, 0, 90⟩ false
        ⟨[("o", { seats := some [], inactiveSeats := none, members := some ["u"] })],
          [], 0, []⟩
        [⟨"o", "g", "u", "d"⟩, ⟨"o", "g", "u", "d"⟩]).2 =
      [Decision.assigned, Decision.assigned] ∧
    (deployUsers ⟨fun _ => .error (), fun _ _ => .created 1, 0, 90⟩ false
        ⟨[("o", { seats := some [], inactiveSeats := none, members := some ["u"] })],
          [], 0, []⟩
        [⟨"o", "g", "u", "d"⟩, ⟨"o", "g", "u", "d"⟩]).1.assignCalls =
      [("o", "u"), ("o", "u")] ∧
    Decision.assigned ≠ Decision.alreadySeated := by
  refine ⟨rfl, rfl, by decide⟩

/-- C3 amended: once the first occurrence of a valid (organization, login)
record resolves to `assigned`, the second occurrence in the same run does
**not** resolve to skipped-already-seated — because the assignment branch
never updates the cached seat list, it resolves to `assigned` again, and
the record is appended to the deployed list a second time. -/
theorem duplicate_record_double_assign (env : DeployEnv) (st : DeployState)
    (u : UserList)
    (h : ∃ st1, processUser env false st u = .ok (st1, .assigned)) :
    ∃ stf, deployUsers env false st [u, u] = (stf, [.assigned, .assigned])
      ∧ stf.deployedSeats = st.deployedSeats ++ [u, u] := by
  obtain ⟨st1, h1⟩ := h
  obtain ⟨-, hd1, st2, h2, -, hd2⟩ := processUser_assigned_inv env st st1 u h1
  refine ⟨st2, ?_, ?_⟩
  · simp [deployUsers, h1, h2]
  · rw [hd2, hd1, List.append_assoc]
    rfl

/-- Witness for `duplicate_record_double_assign` at the concrete input of
`duplicate_record_cex`. -/
theorem duplicate_record_double_assign_witness :
    ∃ stf, deployUsers ⟨fun _ => .error (), fun _ _ => .created 1, 0, 90⟩ false
        ⟨[("o", { seats := some [], inactiveSeats := none, members := some ["u"] })],
          [], 0, []⟩
        [⟨"o", "g", "u", "d"⟩, ⟨"o", "g", "u", "d"⟩] = (stf, [.assigned, .assigned])
      ∧ stf.deployedSeats = DeployState.deployedSeats
          ⟨[("o", { seats := some [], inactiveSeats := none, members := some ["u"] })],
            [], 0, []⟩ ++ [⟨"o", "g", "u", "d"⟩, ⟨"o", "g", "u", "d"⟩] :=
  duplicate_record_double_assign
    ⟨fun _ => .error (), fun _ _ => .created 1, 0, 90⟩
    ⟨[("o", { seats := some [], inactiveSeats := none, members := some ["u"] })],
      [], 0, []⟩
    ⟨"o", "g", "u", "d"⟩ ⟨_, rfl⟩

/-- The always-succeeding assignment sink: every request creates one seat. -/
def stubAssign : String → String → AssignAnswer := fun _ _ => .created 1

/-- Lockstep invariant between a dry run and a real run against the
always-succeeding sink: equal caches, deployed lists and counts are
preserved by the loop, and the dry run never extends its assignment-call
log. -/
lemma deployUsers_dry_real_aux (env : DeployEnv) (records : List UserList) :
    ∀ std str : DeployState, std.cache = str.cache →
      std.deployedSeats = str.deployedSeats →
      std.deployedSeatsCount = str.deployedSeatsCount →
      (deployUsers env true std records).1.cache =
        (deployUsers { env with assign := stubAssign } false str records).1.cache
      ∧ (deployUsers env true std records).1.deployedSeats =
        (deployUsers { env with assign := stubAssign } false str records).1.deployedSeats
      ∧ (deployUsers env true std records).1.deployedSeatsCount =
        (deployUsers { env with assign := stubAssign } false str records).1.deployedSeatsCount
      ∧ (deployUsers env true std records).1.assignCalls = std.assignCalls := by
  induction records with
  | nil =>
      intro std str h1 h2 h3
      exact ⟨h1, h2, h3, rfl⟩
  | cons u rest ih =>
      intro std str h1 h2 h3
      have hcd : cacheGet std.cache u.organization = cacheGet str.cache u.organization := by
        rw [h1]
      cases hc : cacheGet str.cache u.organization with
      | none =>
          rw [hc] at hcd
          cases hf : env.fetchSeats u.organization with
          | error e =>
              have hpd : processUser env true std u = .ok (std, .fetchFailed) := by
                simp [processUser, hcd, hf]
              have hpr : processUser { env with assign := stubAssign } false str u =
                  .ok (str, .fetchFailed) := by
                simp [processUser, hc, hf]
              simp only [deployUsers, hpd, hpr]
              exact ih std str h1 h2 h3
          | ok seats =>
              have hpd : processUser env true std u = .ok
                  ({ std with cache := (fetchOrgUpdate std.cache u.organization
                      env.now env.inactiveDays seats) }, .fetchedData) := by
                simp [processUser, hcd, hf]
              have hpr : processUser { env with assign := stubAssign } false str u = .ok
                  ({ str with cache := (fetchOrgUpdate str.cache u.organization
                      env.now env.inactiveDays seats) }, .fetchedData) := by
                simp [processUser, hc, hf]
              simp only [deployUsers, hpd, hpr]
              refine ih _ _ ?_ h2 h3
              simp [h1]
      | some entry =>
          rw [hc] at hcd
          cases hm : entry.members with
          | none =>
              have hpd : processUser env true std u = .error std := by
                simp [processUser, hcd, hm]
              have hpr : processUser { env with assign := stubAssign } false str u =
                  .error str := by
                simp [processUser, hc, hm]
              simp only [deployUsers, hpd, hpr]
              exact ⟨h1, h2, h3, trivial⟩
          | some members =>
              by_cases hmem : u.login ∈ members
              · cases hfind : (entry.seats.getD []).find? (fun seat =>
                    seat.login == u.login && seat.pending_cancellation_date == none) with
                | some s =>
                    have hpd : processUser env true std u = .ok (std, .alreadySeated) := by
                      simp [processUser, hcd, hm, hmem, hfind]
                    have hpr : processUser { env with assign := stubAssign } false str u =
                        .ok (str, .alreadySeated) := by
                      simp [processUser, hc, hm, hmem, hfind]
                    simp only [deployUsers, hpd, hpr]
                    exact ih std str h1 h2 h3
                | none =>
                    have hpd : processUser env true std u = .ok
                        ({ std with
                            deployedSeats := std.deployedSeats ++ [u],
                            deployedSeatsCount := std.deployedSeatsCount + 1 },
                         .assignedDryRun) := by
                      simp [processUser, hcd, hm, hmem, hfind]
                    have hpr : processUser { env with assign := stubAssign } false str u = .ok
                        ({ str with
                            assignCalls := str.assignCalls ++ [(u.organization, u.login)],
                            deployedSeats := str.deployedSeats ++ [u],
                            deployedSeatsCount := str.deployedSeatsCount + 1 },
                         .assigned) := by
                      simp [processUser, hc, hm, hmem, hfind, stubAssign]
                    simp only [deployUsers, hpd, hpr]
                    refine ih _ _ h1 ?_ ?_
                    · simp [h2]
                    · simp [h3]
              · have hpd : processUser env true std u = .ok (std, .notMember) := by
                  simp [processUser, hcd, hm, hmem]
                have hpr : processUser { env with assign := stubAssign } false str u =
                    .ok (str, .notMember) := by
                  simp [processUser, hc, hm, hmem]
                simp only [deployUsers, hpd, hpr]
                exact ih std str h1 h2 h3

/-- C6: a dry run issues no assignment request to the remote sink (its
call log is unchanged), yet its deployed list and deployed count equal
those of a non-dry run in which every assignment request succeeds and
creates one seat. -/
theorem dry_run_matches_stubbed_real_run (env : DeployEnv) (st : DeployState)
    (records : List UserList) :
    (deployUsers env true st records).1.assignCalls = st.assignCalls
    ∧ (deployUsers env true st records).1.deployedSeats =
        (deployUsers { env with assign := stubAssign } false st records).1.deployedSeats
    ∧ (deployUsers env true st records).1.deployedSeatsCount =
        (deployUsers { env with assign := stubAssign } false st records).1.deployedSeatsCount := by
  obtain ⟨-, h2, h3, h4⟩ := deployUsers_dry_real_aux env records st st rfl rfl rfl
  exact ⟨h4, h2, h3⟩

/-- The `remove-from-team` loop body over the team-assigned inactive
seats, from the variant of `run` that carries the maintainer protection
(the unnamed source file; `src/index.ts`'s older block lacks the role
check). For each seat with an `assigning_team`, the user's role on that
team is looked up (`getMembershipForUserInOrg`); if it is `"maintainer"`
the removal is skipped (`continue`), otherwise the team membership is
revoked. Returns the (team, login) pairs looked up and those revoked, in
loop order. -/
def removeSeatsFromTeam (roleOf : String → String → String) :
    List Seat → List (String × String) × List (String × String)
  | [] => ([], [])
  | seat :: rest =>
      let r := removeSeatsFromTeam roleOf rest
      match seat.assigning_team with
      | none => r
      | some team =>
          ((team, seat.login) :: r.1,
           if roleOf team seat.login = "maintainer" then r.2
           else (team, seat.login) :: r.2)

/-- The whole `if (input.removeFromTeam)` block: filter the inactive
seats to the team-assigned ones, run the loop, and pass
`allRemovedSeatsCount` through — the block never touches the
removed-seat counter (only the individual-removal block does). -/
def removeFromTeamRun (roleOf : String → String → String)
    (inactiveSeats : List Seat) (removedSeatsCount : Nat) :
    (List (String × String) × List (String × String)) × Nat :=
  (removeSeatsFromTeam roleOf (inactiveSeats.filter fun seat => seat.assigning_team.isSome),
   removedSeatsCount)

lemma removeSeatsFromTeam_fst_mem (roleOf : String → String → String)
    (seats : List Seat) (t l : String) :
    (t, l) ∈ (removeSeatsFromTeam roleOf seats).1 ↔
      ∃ s ∈ seats, s.assigning_team = some t ∧ s.login = l := by
  induction seats with
  | nil => simp [removeSeatsFromTeam]
  | cons seat rest ih =>
      cases ht : seat.assigning_team with
      | none =>
          simp only [removeSeatsFromTeam, ht, ih, List.mem_cons]
          constructor
          · rintro ⟨s, hs, h1, h2⟩; exact ⟨s, Or.inr hs, h1, h2⟩
          · rintro ⟨s, hs | hs, h1, h2⟩
            · subst hs; rw [ht] at h1; cases h1
            · exact ⟨s, hs, h1, h2⟩
      | some team =>
          simp only [removeSeatsFromTeam, ht, List.mem_cons, ih, Prod.mk.injEq]
          constructor
          · rintro (⟨rfl, rfl⟩ | ⟨s, hs, h1, h2⟩)
            · exact ⟨seat, Or.inl rfl, ht, rfl⟩
            · exact ⟨s, Or.inr hs, h1, h2⟩
          · rintro ⟨s, hs | hs, h1, h2⟩
            · subst hs; rw [ht] at h1
              cases h1; exact Or.inl ⟨rfl, h2.symm⟩
            · exact Or.inr ⟨s, hs, h1, h2⟩

lemma removeSeatsFromTeam_snd_mem (roleOf : String → String → String)
    (seats : List Seat) (t l : String) :
    (t, l) ∈ (removeSeatsFromTeam roleOf seats).2 ↔
      ∃ s ∈ seats, s.assigning_team = some t ∧ s.login = l ∧
        roleOf t l ≠ "maintainer" := by
  induction seats with
  | nil => simp [removeSeatsFromTeam]
  | cons seat rest ih =>
      cases ht : seat.assigning_team with
      | none =>
          simp only [removeSeatsFromTeam, ht, ih, List.mem_cons]
          constructor
          · rintro ⟨s, hs, h1, h2, h3⟩; exact ⟨s, Or.inr hs, h1, h2, h3⟩
          · rintro ⟨s, hs | hs, h1, h2, h3⟩
            · subst hs; rw [ht] at h1; cases h1
            · exact ⟨s, hs, h1, h2, h3⟩
      | some team =>
          by_cases hrole : roleOf team seat.login = "maintainer"
          · simp only [removeSeatsFromTeam, ht, if_pos hrole, ih, List.mem_cons]
            constructor
            · rintro ⟨s, hs, h1, h2, h3⟩; exact ⟨s, Or.inr hs, h1, h2, h3⟩
            · rintro ⟨s, hs | hs, h1, h2, h3⟩
              · subst hs; rw [ht] at h1
                cases h1; subst h2; exact absurd hrole h3
              · exact ⟨s, hs, h1, h2, h3⟩
          · simp only [removeSeatsFromTeam, ht, if_neg hrole, List.mem_cons, ih,
              Prod.mk.injEq]
            constructor
            · rintro (⟨rfl, rfl⟩ | ⟨s, hs, h1, h2, h3⟩)
              · exact ⟨seat, Or.inl rfl, ht, rfl, hrole⟩
              · exact ⟨s, Or.inr hs, h1, h2, h3⟩
            · rintro ⟨s, hs | hs, h1, h2, h3⟩
              · subst hs; rw [ht] at h1
                cases h1; exact Or.inl ⟨rfl, h2.symm⟩
              · exact Or.inr ⟨s, hs, h1, h2, h3⟩

/-- C5: every team-assigned inactive seat gets a role lookup on its
assigning team; a seat whose role lookup answers "maintainer" is not
revoked from the team and the removed-seat counter is unchanged (the
team-removal block never modifies it); a seat with any other role is
revoked. -/
theorem team_removal_maintainer_protection (roleOf : String → String → String)
    (inactiveSeats : List Seat) (count : Nat) (s : Seat) (t : String)
    (hs : s ∈ inactiveSeats) (ht : s.assigning_team = some t) :
    (t, s.login) ∈ (removeFromTeamRun roleOf inactiveSeats count).1.1
    ∧ (roleOf t s.login = "maintainer" →
        (t, s.login) ∉ (removeFromTeamRun roleOf inactiveSeats count).1.2)
    ∧ (roleOf t s.login ≠ "maintainer" →
        (t, s.login) ∈ (removeFromTeamRun roleOf inactiveSeats count).1.2)
    ∧ (removeFromTeamRun roleOf inactiveSeats count).2 = count := by
  have hfilter : s ∈ inactiveSeats.filter fun seat => seat.assigning_team.isSome := by
    refine List.mem_filter.mpr ⟨hs, ?_⟩
    simp [ht]
  refine ⟨?_, ?_, ?_, rfl⟩
  · exact (removeSeatsFromTeam_fst_mem roleOf _ t s.login).mpr ⟨s, hfilter, ht, rfl⟩
  · intro hrole hmem
    obtain ⟨-, -, -, -, hne⟩ := (removeSeatsFromTeam_snd_mem roleOf _ t s.login).mp hmem
    exact hne hrole
  · intro hrole
    exact (removeSeatsFromTeam_snd_mem roleOf _ t s.login).mpr ⟨s, hfilter, ht, rfl, hrole⟩

/-- Witness for `team_removal_maintainer_protection`: one team-assigned
inactive seat whose role lookup answers "maintainer" — looked up, never
revoked, counter unchanged. -/
theorem team_removal_maintainer_protection_witness :
    ("team1", "u") ∈ (removeFromTeamRun (fun _ _ => "maintainer")
        [⟨"u", 0, none, none, some "team1"⟩] 5).1.1
    ∧ (("team1", "u") ∉ (removeFromTeamRun (fun _ _ => "maintainer")
        [⟨"u", 0, none, none, some "team1"⟩] 5).1.2)
    ∧ (removeFromTeamRun (fun _ _ => "maintainer")
        [⟨"u", 0, none, none, some "team1"⟩] 5).2 = 5 := by
  obtain ⟨h1, h2, -, h4⟩ := team_removal_maintainer_protection
    (fun _ _ => "maintainer") [⟨"u", 0, none, none, some "team1"⟩] 5
    ⟨"u", 0, none, none, some "team1"⟩ "team1" (by simp) rfl
  exact ⟨h1, h2 rfl, h4⟩

/-- The record-validation filter over the parsed CSV rows in `run`
(`src/index.ts`): reject when any of the four fields is the empty string
or `new Date(record.activation_date)` is invalid (`parseDate` returning
`none` models `isNaN(date.getTime())`); otherwise accept exactly when
`validationTime <= activationTime && activationTime <= currentTime`,
where `currentTime = today.getTime()` and
`validationTime = today.setDate(today.getDate() - deployValidationTime)`,
i.e. the clock reading minus `validationDays` calendar days — modelled as
`now - validationDays * dayMs` (exact in a timezone without DST). -/
def recordIsValid (parseDate : String → Option Int) (now validationDays : Int)
    (record : UserList) : Bool :=
  let hasEmptyValues := record.organization == "" || record.deployment_group == "" ||
    record.login == "" || record.activation_date == ""
  match parseDate record.activation_date with
  | none => false
  | some activationTime =>
      if hasEmptyValues then false
      else
        let currentTime := now
        let validationTime := now - validationDays * dayMs
        decide (validationTime ≤ activationTime) && decide (activationTime ≤ currentTime)

/-- `usersToDeploy`: the records surviving validation, in order. -/
def usersToDeploy (parseDate : String → Option Int) (now validationDays : Int)
    (records : List UserList) : List UserList :=
  records.filter (recordIsValid parseDate now validationDays)

/-- C7: a record with non-empty fields and a parseable activation date is
accepted exactly when the activation time lies in the inclusive window
`[now - validationDays days, now]`: the lower boundary (exactly
`validationDays` days back) is accepted, one day further back is
rejected, and a future activation time is rejected. -/
theorem record_window_validation (parseDate : String → Option Int)
    (now validationDays : Int) (record : UserList) (activationTime : Int)
    (hdays : 0 ≤ validationDays)
    (hne : record.organization ≠ "" ∧ record.deployment_group ≠ "" ∧
      record.login ≠ "" ∧ record.activation_date ≠ "")
    (hp : parseDate record.activation_date = some activationTime) :
    (recordIsValid parseDate now validationDays record = true ↔
      now - validationDays * dayMs ≤ activationTime ∧ activationTime ≤ now)
    ∧ (activationTime = now - validationDays * dayMs →
        recordIsValid parseDate now validationDays record = true)
    ∧ (activationTime = now - (validationDays + 1) * dayMs →
        recordIsValid parseDate now validationDays record = false)
    ∧ (activationTime > now →
        recordIsValid parseDate now validationDays record = false) := by
  obtain ⟨h1, h2, h3, h4⟩ := hne
  have hval : recordIsValid parseDate now validationDays record =
      (decide (now - validationDays * dayMs ≤ activationTime) &&
        decide (activationTime ≤ now)) := by
    simp [recordIsValid, hp, h1, h2, h3, h4]
  have hiff : recordIsValid parseDate now validationDays record = true ↔
      now - validationDays * dayMs ≤ activationTime ∧ activationTime ≤ now := by
    rw [hval]; simp
  refine ⟨hiff, ?_, ?_, ?_⟩
  · intro hb
    refine hiff.mpr ⟨le_of_eq hb.symm, ?_⟩
    rw [hb]
    simp only [dayMs]
    omega
  · intro hb
    rw [Bool.eq_false_iff]
    intro hc
    have := (hiff.mp hc).1
    rw [hb] at this
    simp only [dayMs] at this
    omega
  · intro hb
    rw [Bool.eq_false_iff]
    intro hc
    have := (hiff.mp hc).2
    omega

/-- Witness for `record_window_validation`: window of 3 days around
`now = 10` days; an activation exactly 3 days back is accepted, 4 days
back rejected, one in the future rejected. -/
theorem record_window_validation_witness :
    (recordIsValid (fun _ => some (7 * dayMs)) (10 * dayMs) 3 ⟨"o", "g", "u", "d"⟩ = true)
    ∧ (recordIsValid (fun _ => some (6 * dayMs)) (10 * dayMs) 3 ⟨"o", "g", "u", "d"⟩ = false)
    ∧ (recordIsValid (fun _ => some (11 * dayMs)) (10 * dayMs) 3 ⟨"o", "g", "u", "d"⟩ = false) := by
  refine ⟨?_, ?_, ?_⟩
  · exact (record_window_validation (fun _ => some (7 * dayMs)) (10 * dayMs) 3
      ⟨"o", "g", "u", "d"⟩ (7 * dayMs) (by norm_num)
      ⟨by simp, by simp, by simp, by simp⟩ rfl).2.1 (by simp only [dayMs]; norm_num)
  · exact (record_window_validation (fun _ => some (6 * dayMs)) (10 * dayMs) 3
      ⟨"o", "g", "u", "d"⟩ (6 * dayMs) (by norm_num)
      ⟨by simp, by simp, by simp, by simp⟩ rfl).2.2.1 (by simp only [dayMs]; norm_num)
  · exact (record_window_validation (fun _ => some (11 * dayMs)) (10 * dayMs) 3
      ⟨"o", "g", "u", "d"⟩ (11 * dayMs) (by norm_num)
      ⟨by simp, by simp, by simp, by simp⟩ rfl).2.2.2 (by simp only [dayMs]; norm_num)

/-- The `Counts` record of the deployment summary (`src/index.ts`). -/
structure Counts where
  total : Nat
  deployed : Nat
  inactive : Nat
  deriving Repr, DecidableEq

/-- Lookup in the `GroupCounts` object, modelled as an association list
keyed by `deployment_group`. -/
def getCounts : List (String × Counts) → String → Option Counts
  | [], _ => none
  | p :: rest, g => if p.1 = g then some p.2 else getCounts rest g

/-- `counts[g] = c` on the object model: replace or append. -/
def setCounts : List (String × Counts) → String → Counts → List (String × Counts)
  | [], g, c => [(g, c)]
  | p :: rest, g, c => if p.1 = g then (g, c) :: rest else p :: setCounts rest g c

/-- `(orgData.get(record.organization)?.seats ?? []).find(seat =>
seat.assignee.login === record.login && seat.pending_cancellation_date
=== null)` — the pre-existing-seat check of the group tally. -/
def recordPreSeated (cache : List (String × OrgEntry)) (record : UserList) : Bool :=
  (((cacheGet cache record.organization).bind OrgEntry.seats).getD []).any fun seat =>
    seat.login == record.login && seat.pending_cancellation_date == none

/-- `deployedSeats.find(seat => seat.login === record.login)` — the
newly-deployed check (login only, not organization-qualified). -/
def recordNewlyDeployed (deployedSeats : List UserList) (record : UserList) : Bool :=
  deployedSeats.any fun seat => seat.login == record.login

/-- `allInactiveSeats.find(seat => seat.assignee.login === record.login
&& seat.organization === record.organization)` — the inactive check. -/
def recordInactive (allInactiveSeats : List SeatWithOrg) (record : UserList) : Bool :=
  allInactiveSeats.any fun seat =>
    seat.login == record.login && seat.organization == record.organization

/-- One step of the `records.reduce` that builds `groupCounts`
(`src/index.ts`): initialise the group's entry to zeros if absent, then
`total++`; `deployed++` if the record's (org, login) held a non-pending
seat in the cache; `deployed++` again — independently — if the login
appears in `deployedSeats`; `inactive++` if the (login, org) pair appears
in `allInactiveSeats`. -/
def tallyStep (cache : List (String × OrgEntry)) (deployedSeats : List UserList)
    (allInactiveSeats : List SeatWithOrg) (counts : List (String × Counts))
    (record : UserList) : List (String × Counts) :=
  let c0 := (getCounts counts record.deployment_group).getD ⟨0, 0, 0⟩
  let c1 := { c0 with total := c0.total + 1 }
  let c2 := if recordPreSeated cache record then
    { c1 with deployed := c1.deployed + 1 } else c1
  let c3 := if recordNewlyDeployed deployedSeats record then
    { c2 with deployed := c2.deployed + 1 } else c2
  let c4 := if recordInactive allInactiveSeats record then
    { c3 with inactive := c3.inactive + 1 } else c3
  setCounts counts record.deployment_group c4

/-- `records.reduce((counts, record) => …, {})` over all original
records, valid or not. -/
def groupCounts (cache : List (String × OrgEntry)) (deployedSeats : List UserList)
    (allInactiveSeats : List SeatWithOrg) (records : List UserList) :
    List (String × Counts) :=
  records.foldl (tallyStep cache deployedSeats allInactiveSeats) []

/-- The expected tally of one group: every record of the group adds 1 to
`total`, adds to `deployed` the two independent indicator contributions
(pre-seated, newly-deployed), and adds the inactive indicator. -/
def contribCounts (pre newly inact : UserList → Bool) (g : String) :
    List UserList → Counts
  | [] => ⟨0, 0, 0⟩
  | record :: rest =>
      let c := contribCounts pre newly inact g rest
      if record.deployment_group = g then
        { total := c.total + 1,
          deployed := c.deployed + ((if pre record then 1 else 0) +
            (if newly record then 1 else 0)),
          inactive := c.inactive + (if inact record then 1 else 0) }
      else c

lemma getCounts_setCounts (counts : List (String × Counts)) (g g' : String)
    (c : Counts) :
    getCounts (setCounts counts g c) g' =
      if g' = g then some c else getCounts counts g' := by
  induction counts with
  | nil =>
      by_cases h : g' = g
      · subst h; simp [setCounts, getCounts]
      · have h' : ¬ g = g' := fun hh => h hh.symm
        simp [setCounts, getCounts, h, h']
  | cons p rest ih =>
      by_cases hp : p.1 = g
      · simp only [setCounts, if_pos hp]
        by_cases h : g' = g
        · subst h; simp [getCounts]
        · have h1 : ¬ g = g' := fun hh => h hh.symm
          have h2 : ¬ p.1 = g' := fun hh => h (hp.symm.trans hh).symm
          simp only [getCounts, if_neg h1, if_neg h, if_neg h2]
      · simp only [setCounts, if_neg hp]
        by_cases h : g' = g
        · subst h
          simp only [getCounts, if_neg (fun hh : p.1 = g' => hp hh), ih, if_pos rfl]
        · by_cases hq : p.1 = g'
          · simp [getCounts, hq, h]
          · simp only [getCounts, if_neg hq, ih, if_neg h]

/-- Componentwise sum of two tallies. -/
def addCounts (a b : Counts) : Counts :=
  ⟨a.total + b.total, a.deployed + b.deployed, a.inactive + b.inactive⟩

lemma foldl_tallyStep_getCounts (cache : List (String × OrgEntry))
    (dep : List UserList) (inact : List SeatWithOrg) (records : List UserList) :
    ∀ (acc : List (String × Counts)) (g : String),
      (getCounts (records.foldl (tallyStep cache dep inact) acc) g).getD ⟨0, 0, 0⟩ =
        addCounts ((getCounts acc g).getD ⟨0, 0, 0⟩)
          (contribCounts (recordPreSeated cache) (recordNewlyDeployed dep)
            (recordInactive inact) g records) := by
  induction records with
  | nil =>
      intro acc g
      simp [contribCounts, addCounts]
  | cons r rest ih =>
      intro acc g
      simp only [List.foldl_cons]
      rw [ih]
      by_cases hg : r.deployment_group = g
      · subst hg
        simp only [tallyStep, getCounts_setCounts, if_pos rfl, contribCounts]
        by_cases h1 : recordPreSeated cache r <;>
          by_cases h2 : recordNewlyDeployed dep r <;>
          by_cases h3 : recordInactive inact r <;>
          simp [h1, h2, h3, addCounts, Counts.mk.injEq] <;> omega
      · simp only [tallyStep, getCounts_setCounts,
          if_neg (fun hh : g = r.deployment_group => hg hh.symm), contribCounts,
          if_neg hg]

/-- C9: for every group, the tally counts every original record of that
group toward `total`; `deployed` receives, per record, the sum of two
independent indicator contributions — one if the record's (org, login)
held a non-pending-cancellation seat in the pre-run cache, one if the
login appears in the newly-deployed list; `inactive` receives the
inactive-match indicator. In particular a record satisfying both deployed
checks contributes 2 to its group's `deployed`. -/
theorem group_tally_spec (cache : List (String × OrgEntry)) (dep : List UserList)
    (inact : List SeatWithOrg) (records : List UserList) (g : String) :
    (getCounts (groupCounts cache dep inact records) g).getD ⟨0, 0, 0⟩ =
      contribCounts (recordPreSeated cache) (recordNewlyDeployed dep)
        (recordInactive inact) g records
    ∧ ∀ record : UserList, recordPreSeated cache record = true →
        recordNewlyDeployed dep record = true →
        ((getCounts (groupCounts cache dep inact [record])
          record.deployment_group).getD ⟨0, 0, 0⟩).deployed = 2 := by
  constructor
  · rw [groupCounts, foldl_tallyStep_getCounts]
    simp only [getCounts, Option.getD_none]
    cases h : contribCounts (recordPreSeated cache) (recordNewlyDeployed dep)
        (recordInactive inact) g records
    simp [addCounts]
  · intro record h1 h2
    simp only [groupCounts, List.foldl_cons, List.foldl_nil, tallyStep,
      getCounts_setCounts, if_pos rfl]
    by_cases h3 : recordInactive inact record <;>
      simp [h1, h2, h3, getCounts]

/-- Witness for `group_tally_spec`: a record whose (org, login) already
holds a non-pending seat in the cache and whose login is also in the
newly-deployed list contributes 2 to its group's deployed count. -/
theorem group_tally_spec_witness :
    ((getCounts (groupCounts
        [("o", { seats := some [⟨"u", 0, none, none, none⟩], inactiveSeats := none,
                 members := none })]
        [⟨"o", "g", "u", "d"⟩] [] [⟨"o", "g", "u", "d"⟩])
      (UserList.deployment_group ⟨"o", "g", "u", "d"⟩)).getD ⟨0, 0, 0⟩).deployed = 2 :=
  (group_tally_spec
    [("o", { seats := some [⟨"u", 0, none, none, none⟩], inactiveSeats := none,
             members := none })]
    [⟨"o", "g", "u", "d"⟩] [] [⟨"o", "g", "u", "d"⟩] "g").2
    ⟨"o", "g", "u", "d"⟩ (by decide) (by decide)

end CopilotCleanup
